import Mathlib

/-!
Verification development for the UDPipe C wrapper
(`Sources/UDPipeCLib/udpipe_wrapper.cpp` / `.h`).

The development shallowly embeds the wrapper's data model and operations:

* `StringArena` — the bump-pointer block allocator (source lines 16-70),
  modelled byte-exactly: each block is a list of `Option Char` cells
  (`none` = uninitialized byte), pointers are (block index, offset) pairs,
  and `malloc` success/failure is an explicit oracle argument.
* the structured builders `udpipe_tag_structured` / `udpipe_tokenize_structured`
  (source lines 118-191 and 217-281), with the external NLP engine
  (tokenizer / tagger / parser) abstracted as an `EngineModel` oracle that
  yields the trace of `next_sentence` / `tag` / `parse` outcomes.
* `udpipe_free_doc` (source lines 193-215), both at the document-value level
  and over an explicit heap of live handles so that double-free faults are
  observable.
* the parallel batch scheduler `udpipe_tag_batch` (source lines 283-408) as a
  small-step state machine over worker phases, an atomic claim counter and an
  atomic success flag, quantified over arbitrary interleavings (schedules).

Machine integers: all sizes/offsets are `Nat` (the C code uses `size_t` and
never subtracts below zero on the modelled paths); word ids and heads are
`Int` (C `int`).
-/

/-! ## StringArena (udpipe_wrapper.cpp lines 16-70)

A block is a run of bytes; `none` models an uninitialized byte, `some c` a
written byte.  The NUL terminator is the written character `Char.ofNat 0`. -/

structure ArenaBlock where
  size : Nat
  bytes : List (Option Char)
deriving DecidableEq

structure StringArena where
  blocks : List ArenaBlock
  /-- `current_block_ == nullptr` -/
  curNull : Bool
  currentOffset : Nat
  blockSize : Nat
deriving DecidableEq

/-- `DEFAULT_BLOCK_SIZE` (line 24). -/
def defaultBlockSize : Nat := 8192

/-- `sizeof(void*)` on the 64-bit targets the wrapper is built for (line 42). -/
def ptrAlign : Nat := 8

/-- Constructor `StringArena(size_t block_size = DEFAULT_BLOCK_SIZE)` (line 27). -/
def StringArena.mkArena (bs : Nat) : StringArena :=
  ⟨[], true, 0, bs⟩

/-- The default-constructed arena `new StringArena()`. -/
def StringArena.mkDefault : StringArena :=
  StringArena.mkArena defaultBlockSize

/-- Pointers the wrapper can hand out: `null` (never produced by `allocate`,
kept in the type so that "never returns null" is statable), the process-wide
`static char empty_str[]` (line 52), or a (block index, byte offset) pair. -/
inductive APtr where
  | null
  | staticEmpty
  | blk (b : Nat) (off : Nat)
deriving DecidableEq

/-- Overwrite the bytes of `l` starting at index `off` with `src`
(writes falling beyond the end of `l` are dropped; on the reachable
paths the write always fits). -/
def writeList : List (Option Char) → Nat → List (Option Char) → List (Option Char)
  | [], _, _ => []
  | _ :: bs, 0, c :: cs => c :: writeList bs 0 cs
  | l, 0, [] => l
  | b :: bs, n + 1, src => b :: writeList bs n src

/-- The byte image `memcpy(ptr, s.c_str(), s.length() + 1)` writes:
the characters of `s` followed by the NUL terminator (line 61). -/
def cstrBytes (s : String) : List (Option Char) :=
  s.data.map some ++ [some (Char.ofNat 0)]

/-- The alignment adjustment of lines 43-45. -/
def alignOffset (off : Nat) : Nat :=
  if off % ptrAlign ≠ 0 then off + (ptrAlign - off % ptrAlign) else off

/-- The new-block condition of line 47:
`current_block_ == nullptr || (current_offset_ + required) > block_size_`,
evaluated after the alignment adjustment. -/
def StringArena.needNewBlock (a : StringArena) (s : String) : Bool :=
  a.curNull || decide (alignOffset a.currentOffset + (s.length + 1) > a.blockSize)

/-- Update the element of `l` at index `i` by `f` (identity out of bounds). -/
def modifyIdx (f : α → α) : Nat → List α → List α
  | _, [] => []
  | 0, x :: xs => f x :: xs
  | n + 1, x :: xs => x :: modifyIdx f n xs

/-- `StringArena::allocate` (lines 39-64).  `mallocOk` is the oracle for the
`std::malloc` call of line 49; the function is total and never signals an
error, mirroring the C function whose every path returns a `char*`. -/
def StringArena.allocate (a : StringArena) (s : String) (mallocOk : Bool) :
    APtr × StringArena :=
  let required := s.length + 1
  let off := alignOffset a.currentOffset
  if a.curNull || decide (off + required > a.blockSize) then
    if mallocOk then
      -- lines 48-57: new block of size max(block_size_, required); the old
      -- blocks are retained; the shared tail (lines 60-63) then writes the
      -- string at offset 0 of the fresh block.
      let nbs := max a.blockSize required
      let fresh : ArenaBlock := ⟨nbs, writeList (List.replicate nbs none) 0 (cstrBytes s)⟩
      (APtr.blk a.blocks.length 0,
        ⟨a.blocks ++ [fresh], false, required, nbs⟩)
    else
      -- lines 50-54: malloc failed; current_block_ was assigned nullptr and
      -- the static empty string is returned; offset keeps its aligned value,
      -- block_size_ and the block list are untouched.
      (APtr.staticEmpty, { a with curNull := true, currentOffset := off })
  else
    -- lines 60-63: write into the current (= last) block at the aligned
    -- offset and advance the cursor.
    let idx := a.blocks.length - 1
    (APtr.blk idx off,
      { a with
        blocks := modifyIdx
          (fun blk => ⟨blk.size, writeList blk.bytes off (cstrBytes s)⟩) idx a.blocks,
        currentOffset := off + required })

/-- `allocate_empty` (lines 67-69). -/
def StringArena.allocateEmpty (a : StringArena) (mallocOk : Bool) : APtr × StringArena :=
  a.allocate "" mallocOk

/-- Run a sequence of allocations (string, malloc-oracle), keeping the arena. -/
def StringArena.allocMany (a : StringArena) (l : List (String × Bool)) : StringArena :=
  l.foldl (fun a p => (a.allocate p.1 p.2).2) a

/-- Read a C string: consume written bytes up to the first NUL; fail on an
uninitialized byte or running off the end of the block. -/
def readCStr : List (Option Char) → Option (List Char)
  | [] => none
  | none :: _ => none
  | some c :: rest =>
    if c = Char.ofNat 0 then some [] else (readCStr rest).map (fun l => c :: l)

/-- Dereference a pointer in the context of an arena: the null-terminated
contents it points at, if any. -/
def StringArena.deref (a : StringArena) : APtr → Option String
  | .null => none
  | .staticEmpty => some ""
  | .blk b off =>
    (a.blocks[b]?).bind fun blk => (readCStr (blk.bytes.drop off)).map (fun l => ⟨l⟩)

/-- Basic well-formedness of a block: the byte list realizes the size. -/
def ArenaBlock.WF (blk : ArenaBlock) : Prop :=
  blk.bytes.length = blk.size

/-- Arena invariant maintained by `allocate`: every block's byte list has the
recorded size, and while a current block exists it is the last block, has size
`block_size_`, and everything at or beyond the write cursor is uninitialized. -/
def StringArena.WF (a : StringArena) : Prop :=
  (∀ blk ∈ a.blocks, blk.WF) ∧
  (a.curNull = false →
    ∃ blk, a.blocks.getLast? = some blk ∧ a.blockSize = blk.size ∧
      ∀ i c, a.currentOffset ≤ i → blk.bytes[i]? ≠ some (some c))

/-! ## Engine abstraction

The external NLP engine (tokenizer/tagger/parser, "engine session" in the
spec) is out of scope and is abstracted as an oracle.  `IterResult` records
the outcomes of one iteration of the builder's `while (reader->next_sentence)`
loop: the tokenized sentence, whether `next_sentence` left a non-empty error,
whether `tag`/`parse` succeeded (udpipe sets a non-empty error message
whenever they return false) and their resulting word lists, and whether the
`malloc` for that sentence's token array succeeds. -/

structure EngineWord where
  id : Int
  head : Int
  form : String
  «lemma» : String
  upostag : String
  xpostag : String
  feats : String
  deprel : String
  /-- `get_token_range`: `some (start, end)` when the engine can report the
  byte range, `none` otherwise. -/
  range : Option (Nat × Nat)
deriving DecidableEq

structure IterResult where
  /-- `next_sentence` returned true but left a non-empty error. -/
  tokErr : Bool
  /-- the words of the sentence as tokenized. -/
  sent : List EngineWord
  tagOk : Bool
  /-- the words after a successful `tag`. -/
  tagged : List EngineWord
  parseOk : Bool
  /-- the words after a successful `parse`. -/
  parsed : List EngineWord
  /-- the `malloc` for this sentence's token array (lines 168 / 262 / 355). -/
  allocOk : Bool
deriving DecidableEq

structure ReaderRun where
  /-- one entry per `next_sentence` call that returned true, in order. -/
  iters : List IterResult
  /-- the final `next_sentence` call that returned false left a non-empty
  error string. -/
  finalErr : Bool
deriving DecidableEq

/-- The engine behaviour backing one loaded model: whether `new_tokenizer`
with the given options succeeds, and the reader trace for given options and
input text. -/
structure EngineModel where
  newTokenizerOk : String → Bool
  run : String → String → ReaderRun

/-! ## Output data model (udpipe_wrapper.h lines 41-63) -/

/-- `udpipe_token`.  String fields hold the contents the arena pointers point
at (the arena copies the bytes; the detailed `StringArena` model above proves
these contents stay stable).  `startOff`/`endOff` are the C fields
`start`/`end`. -/
structure UToken where
  id : Int
  head : Int
  form : String
  «lemma» : String
  upos : String
  xpostag : String
  feats : String
  deprel : String
  startOff : Nat
  endOff : Nat
deriving DecidableEq

/-- `udpipe_sentence_view`: the token array; its `count` field always equals
the list length (line 167: `view.count = toks.size()`). -/
abbrev USent := List UToken

/-- `udpipe_doc_view`: `none` models a null pointer; the arena field only
records whether the document owns a (live) arena. -/
structure UDoc where
  sentences : Option (List USent)
  count : Nat
  arena : Option Unit
deriving DecidableEq

/-- A value-initialized / fully released doc view. -/
def zeroDoc : UDoc := ⟨none, 0, none⟩

/-- The state every failing structured call leaves in `*out_doc`: sentences
null, count 0, but the arena created on entry still attached (it is never
detached on the failure paths, lines 125-126 / 176-181 / 186-187). -/
def failDoc : UDoc := ⟨none, 0, some ()⟩

/-- Offset recovery, lines 160-162: the reported byte range, or (0, 0). -/
def tokenRange (w : EngineWord) : Nat × Nat :=
  w.range.getD (0, 0)

/-- Token built by the tagging paths (lines 151-162 / 340-350): id/head and
all linguistic fields copied from the engine word. -/
def mkTokenTagged (w : EngineWord) : UToken :=
  ⟨w.id, w.head, w.form, w.«lemma», w.upostag, w.xpostag, w.feats, w.deprel,
    (tokenRange w).1, (tokenRange w).2⟩

/-- Token built by the tokenize-only path (lines 246-257): head is the -1
sentinel and lemma/upos/xpostag/feats/deprel are arena-allocated empty
strings. -/
def mkTokenTok (w : EngineWord) : UToken :=
  ⟨w.id, -1, w.form, "", "", "", "", "", (tokenRange w).1, (tokenRange w).2⟩

/-- The per-sentence materializing loop (lines 149-164): walk the word list,
`continue` on `w.id <= 0`, append the built token otherwise. -/
def materialize (f : EngineWord → UToken) : List EngineWord → List UToken
  | [] => []
  | w :: ws => if w.id ≤ 0 then materialize f ws else f w :: materialize f ws

/-- The word list the tagging materializer reads: after `parse` when
`do_parse` was set, after `tag` otherwise. -/
def wordsOf (doParse : Bool) (it : IterResult) : List EngineWord :=
  if doParse then it.parsed else it.tagged

/-- The sentence loop of `udpipe_tag_structured` (lines 139-174): returns the
accumulated sentence views and whether the error string is still empty on
loop exit.  Break conditions in source order: non-empty error after
`next_sentence`, `tag` failure, `parse` failure (only when `do_parse`),
token-array `malloc` failure. -/
def runLoopTag (doParse : Bool) : List IterResult → List USent × Bool
  | [] => ([], true)
  | it :: rest =>
    if it.tokErr then ([], false)
    else if !it.tagOk then ([], false)
    else if doParse && !it.parseOk then ([], false)
    else if !it.allocOk then ([], false)
    else
      let r := runLoopTag doParse rest
      (materialize mkTokenTagged (wordsOf doParse it) :: r.1, r.2)

/-- The sentence loop of `udpipe_tokenize_structured` (lines 239-268):
no tagging or parsing, tokens built from the tokenized words. -/
def runLoopTok : List IterResult → List USent × Bool
  | [] => ([], true)
  | it :: rest =>
    if it.tokErr then ([], false)
    else if !it.allocOk then ([], false)
    else
      let r := runLoopTok rest
      (materialize mkTokenTok it.sent :: r.1, r.2)

/-- Body of `udpipe_tag_structured` for non-null arguments (lines 121-190),
also the body of the batch worker (lines 308-380, which repeats it verbatim
plus the slot bookkeeping).  `finalAllocOk` is the oracle for the
`malloc` of the sentences array (line 185 / 372). -/
def buildDoc (m : EngineModel) (doParse : Bool) (finalAllocOk : Bool) (txt : String) :
    Int × UDoc :=
  if !m.newTokenizerOk "" then (0, failDoc)
  else
    let r := m.run "" txt
    let loopRes := runLoopTag doParse r.iters
    if !loopRes.2 then (0, failDoc)
    else if r.finalErr then (0, failDoc)
    else if !finalAllocOk then (0, failDoc)
    else (1, ⟨some loopRes.1, loopRes.1.length, some ()⟩)

/-- Body of `udpipe_tokenize_structured` for non-null arguments
(lines 221-280). -/
def buildTokDoc (m : EngineModel) (opts : String) (finalAllocOk : Bool) (txt : String) :
    Int × UDoc :=
  if !m.newTokenizerOk opts then (0, failDoc)
  else
    let r := m.run opts txt
    let loopRes := runLoopTok r.iters
    if !loopRes.2 then (0, failDoc)
    else if r.finalErr then (0, failDoc)
    else if !finalAllocOk then (0, failDoc)
    else (1, ⟨some loopRes.1, loopRes.1.length, some ()⟩)

/-- `udpipe_tag_structured` (lines 118-191).  `none` models a null model
handle or text pointer; in that case the function returns 0 without touching
`*out_doc` (line 120 precedes the zeroing of lines 121-123), so the initial
contents `outInit` are returned unchanged. -/
def udpipe_tag_structured (m : Option EngineModel) (text : Option String)
    (doParse : Bool) (finalAllocOk : Bool) (outInit : UDoc) : Int × UDoc :=
  match m, text with
  | some mm, some t => buildDoc mm doParse finalAllocOk t
  | _, _ => (0, outInit)

/-- `udpipe_tokenize_structured` (lines 217-281).  A null
`tokenizer_options` is normalized to the empty string (line 229). -/
def udpipe_tokenize_structured (m : Option EngineModel) (text : Option String)
    (tokenizerOptions : Option String) (finalAllocOk : Bool) (outInit : UDoc) :
    Int × UDoc :=
  match m, text with
  | some mm, some t => buildTokDoc mm (tokenizerOptions.getD "") finalAllocOk t
  | _, _ => (0, outInit)

/-- `udpipe_free_doc` (lines 193-215) as a transformer of the doc view: the
owned arena and arrays are released and all three fields are zeroed
(lines 212-214).  The heap-level model below accounts for the releases. -/
def udpipe_free_doc (_d : UDoc) : UDoc := zeroDoc

/-! ## Heap-level model of udpipe_free_doc (lines 193-215)

To make double-free faults observable, documents are re-expressed with
explicit allocation handles (`Nat` ids) and a heap of live handles; freeing a
handle not in the heap is a fault (`none`). -/

structure HSent where
  /-- the token array pointer: `none` = null. -/
  tokens : Option Nat
  count : Nat
deriving DecidableEq

structure HDoc where
  /-- the sentences array: its own handle plus the per-sentence views stored
  in it. -/
  sentences : Option (Nat × List HSent)
  count : Nat
  arena : Option Nat
deriving DecidableEq

def zeroHDoc : HDoc := ⟨none, 0, none⟩

/-- The heap: the multiset of live allocation handles. -/
abbrev Heap := List Nat

/-- Release a handle; faults if it is not live. -/
def heapFree (h : Heap) (x : Nat) : Option Heap :=
  if x ∈ h then some (h.erase x) else none

/-- The loop of lines 203-208: free the token array of each of the first
`count` sentence views; reading past the end of the array is a fault. -/
def freeSentenceArrays : Heap → Nat → List HSent → Option Heap
  | h, 0, _ => some h
  | _, _ + 1, [] => none
  | h, n + 1, sv :: rest =>
    match sv.tokens with
    | none => freeSentenceArrays h n rest
    | some t => (heapFree h t).bind fun h2 => freeSentenceArrays h2 n rest

/-- `udpipe_free_doc` over the heap: delete the arena if non-null
(lines 197-199), then free each sentence's token array and the sentence
array itself if non-null (lines 202-210), then zero all fields
(lines 212-214). -/
def udpipe_free_doc_heap (h : Heap) (d : HDoc) : Option (Heap × HDoc) :=
  (match d.arena with
    | none => some h
    | some a => heapFree h a).bind fun h1 =>
  (match d.sentences with
    | none => some h1
    | some (arr, svs) =>
      (freeSentenceArrays h1 d.count svs).bind fun h2 => heapFree h2 arr).map
    fun h2 => (h2, zeroHDoc)

/-! ## Batch scheduler (lines 283-408)

`udpipe_tag_batch` is modelled as a state machine over the shared state of
lines 291-293 (`results`, `next_index`, `success_flag`) plus each worker's
control location in the loop of lines 303-381.  A schedule (list of worker
ids) fixes the interleaving; one event advances one worker by one atomic
step: reading the flag at the loop head, the `fetch_add` claim, or the whole
processing of a claimed index including the slot write (exclusive to that
worker, so its granularity is unobservable by the others). -/

inductive WPhase where
  /-- at `while (success_flag)`, about to read the flag. -/
  | atHead
  /-- flag read true, about to `fetch_add`. -/
  | readyToClaim
  /-- claimed index `i`, processing it. -/
  | holding (i : Nat)
  /-- exited the loop. -/
  | done
deriving DecidableEq

structure BatchCfg where
  m : EngineModel
  doParse : Bool
  texts : List String
  /-- per-index oracle for the `malloc` of the slot's sentences array
  (line 372). -/
  slotAllocOk : Nat → Bool

structure BState where
  nextIndex : Nat
  flag : Bool
  slots : List UDoc
  workers : List WPhase

/-- The worker-side processing of the text at index `i` (lines 308-380):
identical to the `udpipe_tag_structured` body; the returned status decides
whether the worker flips the success flag. -/
def slotResult (cfg : BatchCfg) (i : Nat) : Int × UDoc :=
  buildDoc cfg.m cfg.doParse (cfg.slotAllocOk i) (cfg.texts.getD i "")

def setPhase (st : BState) (w : Nat) (ph : WPhase) : BState :=
  { st with workers := st.workers.set w ph }

/-- One atomic step of worker `w` (no-op for an invalid id or a finished
worker). -/
def step (cfg : BatchCfg) (st : BState) (w : Nat) : BState :=
  match st.workers[w]? with
  | none => st
  | some WPhase.done => st
  | some WPhase.atHead =>
    -- line 304: `while (success_flag)`
    if st.flag then setPhase st w WPhase.readyToClaim else setPhase st w WPhase.done
  | some WPhase.readyToClaim =>
    -- lines 305-306: `next_index.fetch_add(1)`, bounds check.
    let i := st.nextIndex
    let st2 := { st with nextIndex := i + 1 }
    if i < cfg.texts.length then setPhase st2 w (WPhase.holding i)
    else setPhase st2 w WPhase.done
  | some (WPhase.holding i) =>
    -- lines 308-380: build the document into the claimed slot; on failure
    -- the worker's own cleanup leaves the slot in the failure shape and the
    -- shared flag is lowered.
    let r := slotResult cfg i
    let st2 := { st with slots := st.slots.set i r.2, flag := st.flag && (r.1 == 1) }
    setPhase st2 w WPhase.atHead

def runSched (cfg : BatchCfg) (st : BState) (sched : List Nat) : BState :=
  sched.foldl (step cfg) st

/-- Worker pool sizing (lines 295-297): `hardware_concurrency` (0 mapped
to 1), clamped to the batch size. -/
def numThreads (hw : Nat) (n : Nat) : Nat :=
  let t := if hw == 0 then 1 else hw
  if t > n then n else t

/-- Initial shared state: `std::vector<udpipe_doc_view> results(batch_size)`
is value-initialized (all slots zeroed), counter 0, flag true, all workers at
the loop head. -/
def initBState (cfg : BatchCfg) (hw : Nat) : BState :=
  ⟨0, true, List.replicate cfg.texts.length zeroDoc,
    List.replicate (numThreads hw cfg.texts.length) WPhase.atHead⟩

/-- The join barrier of lines 385-387: every worker has exited its loop. -/
def AllDone (st : BState) : Prop :=
  ∀ ph ∈ st.workers, ph = WPhase.done

instance (st : BState) : Decidable (AllDone st) :=
  List.decidableBAll (fun ph => ph = WPhase.done) st.workers

/-- What `udpipe_tag_batch` communicates to the caller plus the final state
of the local `results` buffer (to express that every slot went through
`udpipe_free_doc` on failure). -/
structure BatchOut where
  ret : Int
  outDocs : Option (List UDoc)
  outSize : Nat
  slotsAfter : List UDoc
deriving DecidableEq

/-- Lines 389-407: on a lowered flag every slot is passed through
`udpipe_free_doc` and the call fails; otherwise the output array is
allocated (`outAllocOk` is the oracle for the line-397 malloc; on its
failure every slot is freed likewise) and the slots are copied out. -/
def finishBatch (outAllocOk : Bool) (st : BState) : BatchOut :=
  if !st.flag then ⟨0, none, 0, st.slots.map udpipe_free_doc⟩
  else if !outAllocOk then ⟨0, none, 0, st.slots.map udpipe_free_doc⟩
  else ⟨1, some st.slots, st.slots.length, st.slots⟩

/-- `udpipe_tag_batch` (lines 283-408) under a given schedule: run the
workers to the join, then aggregate.  The claim theorems hypothesize
`AllDone` of the pre-join state — the join of lines 385-387 guarantees
exactly that any schedule that terminates has every worker done. -/
def udpipe_tag_batch (cfg : BatchCfg) (hw : Nat) (sched : List Nat)
    (outAllocOk : Bool) : BatchOut :=
  finishBatch outAllocOk (runSched cfg (initBState cfg hw) sched)

/-! ## Concrete engine fixtures used by witnesses and counterexamples -/

def wGood : EngineWord := ⟨1, 0, "Dogs", "dog", "NOUN", "NN", "", "root", some (0, 4)⟩

def wRoot : EngineWord := ⟨0, 0, "<root>", "", "", "", "", "", none⟩

def wTwo : EngineWord := ⟨2, 1, "run", "run", "VERB", "VB", "", "dep", some (5, 8)⟩

/-- An iteration on which everything succeeds; the sentence has a structural
artifact (id 0) and two real words. -/
def okIter : IterResult :=
  ⟨false, [wRoot, wGood, wTwo], true, [wRoot, wGood, wTwo], true, [wRoot, wGood, wTwo], true⟩

/-- An iteration on which the tagger fails. -/
def badIter : IterResult :=
  ⟨false, [wRoot, wGood], false, [wRoot, wGood], true, [wRoot, wGood], true⟩

/-- An engine that tokenizes every text into the single sentence of
`okIter`. -/
def engOk : EngineModel :=
  ⟨fun _ => true, fun _ _ => ⟨[okIter], false⟩⟩

/-- An engine that fails (tagger error) exactly on the text "bad". -/
def engSel : EngineModel :=
  ⟨fun _ => true, fun _ t => if t = "bad" then ⟨[badIter], false⟩ else ⟨[okIter], false⟩⟩

/-- An engine whose `new_tokenizer` returns null. -/
def engNoTok : EngineModel :=
  ⟨fun _ => false, fun _ _ => ⟨[], false⟩⟩

/-- A two-text batch whose second text fails. -/
def cfgFail : BatchCfg := ⟨engSel, false, ["good", "bad"], fun _ => true⟩

/-- A two-text batch on which everything succeeds. -/
def cfgOk : BatchCfg := ⟨engOk, false, ["a", "b"], fun _ => true⟩

/-- A schedule for `cfgFail` with one worker, long enough to finish. -/
def schedFail : List Nat := List.replicate 12 0

/-- A schedule for `cfgOk` with two workers under which worker 1 processes
text 0 and worker 0 processes text 1 (out-of-order processing). -/
def schedOk : List Nat := [0, 1, 1, 1, 0, 0, 0, 0, 1, 1]

/-- Worker `w` currently holds claimed index `i`. -/
def workerHolds (st : BState) (w : Nat) (i : Nat) : Prop :=
  st.workers[w]? = some (WPhase.holding i)

/-- The inductive invariant of the batch state machine: the slot buffer has
one slot per text; a held index is claimed and in bounds; while the success
flag stands, every claimed in-bounds index is either still held by some
worker or its slot holds the successful result of processing the text at
that index; and while the flag stands, a finished worker implies the claim
counter has passed the batch size. -/
def BInv (cfg : BatchCfg) (st : BState) : Prop :=
  st.slots.length = cfg.texts.length ∧
  (∀ w i, workerHolds st w i → i < st.nextIndex ∧ i < cfg.texts.length) ∧
  (st.flag = true → ∀ i, i < st.nextIndex → i < cfg.texts.length →
    (∃ w, workerHolds st w i) ∨
    (st.slots[i]? = some (slotResult cfg i).2 ∧ (slotResult cfg i).1 = 1)) ∧
  (st.flag = true → ∀ w : Nat, st.workers[w]? = some WPhase.done →
    cfg.texts.length ≤ st.nextIndex)

/-! ## Theorems -/

theorem writeList_length (l : List (Option Char)) (off : Nat) (src : List (Option Char)) :
    (writeList l off src).length = l.length := by
  induction l, off, src using writeList.induct <;> simp [writeList, *]

theorem writeList_get?_lt (l : List (Option Char)) (off : Nat) (src : List (Option Char))
    (i : Nat) (hi : i < off) : (writeList l off src)[i]? = l[i]? := by
  induction l, off, src using writeList.induct generalizing i with
  | case1 => simp [writeList]
  | case2 x bs c cs ih => omega
  | case3 => simp [writeList]
  | case4 b bs n src ih =>
    cases i with
    | zero => simp [writeList]
    | succ j => simp only [writeList, List.getElem?_cons_succ]; exact ih j (by omega)

theorem writeList_get?_ge (l : List (Option Char)) (off : Nat) (src : List (Option Char))
    (i : Nat) (hi : off + src.length ≤ i) : (writeList l off src)[i]? = l[i]? := by
  induction l, off, src using writeList.induct generalizing i with
  | case1 => simp [writeList]
  | case2 x bs c cs ih =>
    cases i with
    | zero => simp at hi
    | succ j =>
      simp only [writeList, List.getElem?_cons_succ]
      exact ih j (by simp at hi ⊢; omega)
  | case3 => simp [writeList]
  | case4 b bs n src ih =>
    cases i with
    | zero => omega
    | succ j => simp only [writeList, List.getElem?_cons_succ]; exact ih j (by omega)

theorem writeList_get?_in (l : List (Option Char)) (off : Nat) (src : List (Option Char))
    (i : Nat) (h1 : off ≤ i) (h2 : i < off + src.length) (h3 : i < l.length) :
    (writeList l off src)[i]? = src[i - off]? := by
  induction l, off, src using writeList.induct generalizing i with
  | case1 => simp at h3
  | case2 x bs c cs ih =>
    cases i with
    | zero => simp [writeList]
    | succ j =>
      simp only [writeList, List.getElem?_cons_succ]
      have := ih j (by omega) (by simp at h2 ⊢; omega) (by simp at h3; omega)
      simpa using this
  | case3 => simp at h2
  | case4 b bs n src ih =>
    cases i with
    | zero => omega
    | succ j =>
      simp only [writeList, List.getElem?_cons_succ]
      have := ih j (by omega) (by omega) (by simp at h3; omega)
      rw [this]
      congr 1
      omega

theorem modifyIdx_get?_ne (f : α → α) (n : Nat) (l : List α) (i : Nat) (hi : i ≠ n) :
    (modifyIdx f n l)[i]? = l[i]? := by
  induction n, l using modifyIdx.induct (f := f) generalizing i with
  | case1 => simp [modifyIdx]
  | case2 x xs =>
    cases i with
    | zero => omega
    | succ j => simp [modifyIdx]
  | case3 m x xs ih =>
    cases i with
    | zero => simp [modifyIdx]
    | succ j =>
      simp only [modifyIdx, List.getElem?_cons_succ]
      exact ih j (by omega)

theorem modifyIdx_get?_eq (f : α → α) (n : Nat) (l : List α) :
    (modifyIdx f n l)[n]? = (l[n]?).map f := by
  induction n, l using modifyIdx.induct (f := f) with
  | case1 => simp [modifyIdx]
  | case2 x xs => simp [modifyIdx]
  | case3 m x xs ih => simp only [modifyIdx, List.getElem?_cons_succ]; exact ih

theorem modifyIdx_length (f : α → α) (n : Nat) (l : List α) :
    (modifyIdx f n l).length = l.length := by
  induction n, l using modifyIdx.induct (f := f) <;> simp [modifyIdx, *]

theorem alignOffset_ge (off : Nat) : off ≤ alignOffset off := by
  unfold alignOffset
  split <;> omega

theorem cstrBytes_length (s : String) : (cstrBytes s).length = s.length + 1 := by
  unfold cstrBytes
  rw [List.length_append, List.length_map]
  rfl

theorem writeList_drop (l : List (Option Char)) (off : Nat) (src : List (Option Char))
    (h : off + src.length ≤ l.length) :
    (writeList l off src).drop off = src ++ l.drop (off + src.length) := by
  apply List.ext_getElem?
  intro i
  rw [List.getElem?_drop, List.getElem?_append]
  by_cases hi : i < src.length
  · rw [writeList_get?_in l off src (off + i) (by omega) (by omega) (by omega)]
    rw [if_pos hi]
    congr 1
    omega
  · rw [writeList_get?_ge l off src (off + i) (by omega)]
    rw [if_neg hi, List.getElem?_drop]
    congr 1
    omega

theorem readCStr_mono (l : List (Option Char)) (l2 : List (Option Char))
    (hlen : l.length = l2.length)
    (hp : ∀ (i : Nat) (c : Char), l[i]? = some (some c) → l2[i]? = some (some c))
    (cs : List Char) (h : readCStr l = some cs) : readCStr l2 = some cs := by
  induction l generalizing l2 cs with
  | nil => simp [readCStr] at h
  | cons b rest ih =>
    cases b with
    | none => simp [readCStr] at h
    | some c =>
      have h0 : l2[0]? = some (some c) := hp 0 c (by simp)
      cases l2 with
      | nil => simp at h0
      | cons b2 rest2 =>
        have hb2 : b2 = some c := by simpa using h0
        subst hb2
        by_cases hc : c = Char.ofNat 0
        · simp only [readCStr, if_pos hc] at h ⊢
          exact h
        · simp only [readCStr, if_neg hc] at h ⊢
          rcases Option.map_eq_some'.1 h with ⟨cs0, hcs0, rfl⟩
          have hres : readCStr rest2 = some cs0 := by
            apply ih rest2 (by simpa using hlen) _ cs0 hcs0
            intro i c2 hi
            have := hp (i + 1) c2 (by simpa using hi)
            simpa using this
          rw [hres]
          rfl

theorem readCStr_terminated (cs : List Char) (rest : List (Option Char)) :
    ∃ out, readCStr (cs.map some ++ (some (Char.ofNat 0) :: rest)) = some out := by
  induction cs with
  | nil => exact ⟨[], by simp [readCStr]⟩
  | cons c cs ih =>
    by_cases hc : c = Char.ofNat 0
    · exact ⟨[], by simp [readCStr, hc]⟩
    · obtain ⟨out, hout⟩ := ih
      exact ⟨c :: out, by simp [readCStr, hc, hout]⟩

theorem cstrBytes_append (s : String) (rest : List (Option Char)) :
    cstrBytes s ++ rest = s.data.map some ++ (some (Char.ofNat 0) :: rest) := by
  simp [cstrBytes]

theorem allocate_newBlock (a : StringArena) (s : String) (hc : a.needNewBlock s = true) :
    a.allocate s true =
      (APtr.blk a.blocks.length 0,
        ⟨a.blocks ++ [⟨max a.blockSize (s.length + 1),
            writeList (List.replicate (max a.blockSize (s.length + 1)) none) 0 (cstrBytes s)⟩],
          false, s.length + 1, max a.blockSize (s.length + 1)⟩) := by
  unfold StringArena.needNewBlock at hc
  simp only [StringArena.allocate, hc]
  rfl

theorem allocate_mallocFail (a : StringArena) (s : String) (hc : a.needNewBlock s = true) :
    a.allocate s false =
      (APtr.staticEmpty,
        { a with curNull := true, currentOffset := alignOffset a.currentOffset }) := by
  unfold StringArena.needNewBlock at hc
  simp only [StringArena.allocate, hc]
  rfl

theorem allocate_inBlock (a : StringArena) (s : String) (ok : Bool)
    (hc : a.needNewBlock s = false) :
    a.allocate s ok =
      (APtr.blk (a.blocks.length - 1) (alignOffset a.currentOffset),
        { a with
          blocks := modifyIdx
            (fun blk => ⟨blk.size,
              writeList blk.bytes (alignOffset a.currentOffset) (cstrBytes s)⟩)
            (a.blocks.length - 1) a.blocks,
          currentOffset := alignOffset a.currentOffset + (s.length + 1) }) := by
  unfold StringArena.needNewBlock at hc
  simp only [StringArena.allocate, hc]
  rfl

theorem needNewBlock_eq_false (a : StringArena) (s : String)
    (hc : a.needNewBlock s = false) :
    a.curNull = false ∧ alignOffset a.currentOffset + (s.length + 1) ≤ a.blockSize := by
  unfold StringArena.needNewBlock at hc
  cases hcn : a.curNull with
  | true => rw [hcn] at hc; simp at hc
  | false =>
    rw [hcn] at hc
    simp only [Bool.false_or, decide_eq_false_iff_not] at hc
    exact ⟨rfl, by omega⟩

theorem mem_modifyIdx (f : α → α) (n : Nat) (l : List α) (x : α)
    (hx : x ∈ modifyIdx f n l) : x ∈ l ∨ ∃ y, y ∈ l ∧ x = f y := by
  induction n, l using modifyIdx.induct (f := f) with
  | case1 => simp [modifyIdx] at hx
  | case2 z xs =>
    simp only [modifyIdx, List.mem_cons] at hx
    rcases hx with hx | hx
    · exact Or.inr ⟨z, List.mem_cons_self z xs, hx⟩
    · exact Or.inl (List.mem_cons_of_mem z hx)
  | case3 m z xs ih =>
    simp only [modifyIdx, List.mem_cons] at hx
    rcases hx with hx | hx
    · exact Or.inl (hx ▸ List.mem_cons_self z xs)
    · rcases ih hx with h | ⟨y, hy, hxy⟩
      · exact Or.inl (List.mem_cons_of_mem z h)
      · exact Or.inr ⟨y, List.mem_cons_of_mem z hy, hxy⟩

theorem mkArena_WF (bs : Nat) : (StringArena.mkArena bs).WF := by
  constructor
  · intro blk hb
    simp [StringArena.mkArena] at hb
  · intro hcn
    simp [StringArena.mkArena] at hcn

theorem allocate_WF (a : StringArena) (s : String) (ok : Bool) (h : a.WF) :
    ((a.allocate s ok).2).WF := by
  by_cases hc : a.needNewBlock s = true
  · cases ok with
    | false =>
      rw [allocate_mallocFail a s hc]
      refine ⟨fun blk hb => h.1 blk hb, fun hcn => by simp at hcn⟩
    | true =>
      rw [allocate_newBlock a s hc]
      constructor
      · intro blk hb
        rcases List.mem_append.1 hb with hb | hb
        · exact h.1 blk hb
        · simp only [List.mem_singleton] at hb
          subst hb
          show _ = _
          rw [writeList_length, List.length_replicate]
      · intro _
        refine ⟨_, List.getLast?_concat _, rfl, ?_⟩
        intro i c hi hcontra
        dsimp only at hi
        rw [writeList_get?_ge _ _ _ i (by rw [cstrBytes_length]; omega)] at hcontra
        rw [List.getElem?_replicate] at hcontra
        split at hcontra <;> simp at hcontra
  · have hc2 : a.needNewBlock s = false := by
      cases hnb : a.needNewBlock s
      · rfl
      · exact absurd hnb hc
    obtain ⟨hcn, hle⟩ := needNewBlock_eq_false a s hc2
    rw [allocate_inBlock a s ok hc2]
    obtain ⟨blkL, hlast, hbs, hnone⟩ := h.2 hcn
    have hne : a.blocks ≠ [] := by
      intro e
      rw [e] at hlast
      simp at hlast
    have hidx : a.blocks[a.blocks.length - 1]? = some blkL := by
      rw [← List.getLast?_eq_getElem?]
      exact hlast
    have hblkwf : blkL.bytes.length = blkL.size := by
      rcases List.getElem?_eq_some.1 hidx with ⟨hl, he⟩
      exact h.1 blkL (he ▸ List.getElem_mem hl)
    constructor
    · intro blk hb
      rcases mem_modifyIdx _ _ _ _ hb with hb | ⟨y, hy, hxy⟩
      · exact h.1 blk hb
      · subst hxy
        show _ = _
        rw [writeList_length]
        exact h.1 y hy
    · intro _
      refine ⟨⟨blkL.size, writeList blkL.bytes (alignOffset a.currentOffset) (cstrBytes s)⟩,
        ?_, by simpa using hbs, ?_⟩
      · rw [List.getLast?_eq_getElem?]
        simp only [modifyIdx_length]
        rw [modifyIdx_get?_eq, hidx]
        rfl
      · intro i c hi hcontra
        dsimp only at hi
        rw [writeList_get?_ge _ _ _ i (by rw [cstrBytes_length]; omega)] at hcontra
        have hoff := alignOffset_ge a.currentOffset
        exact hnone i c (by omega) hcontra

theorem allocate_deref_stable (a : StringArena) (s : String) (ok : Bool) (h : a.WF)
    (p : APtr) (t : String) (hd : a.deref p = some t) :
    ((a.allocate s ok).2).deref p = some t := by
  cases p with
  | null => simp [StringArena.deref] at hd
  | staticEmpty => simpa [StringArena.deref] using hd
  | blk b off =>
    simp only [StringArena.deref] at hd ⊢
    rcases Option.bind_eq_some.1 hd with ⟨blk0, hblk0, hread⟩
    have hb : b < a.blocks.length := by
      rcases List.getElem?_eq_some.1 hblk0 with ⟨hl, _⟩
      exact hl
    by_cases hc : a.needNewBlock s = true
    · cases ok with
      | false =>
        rw [allocate_mallocFail a s hc]
        dsimp only
        rw [hblk0]
        simpa using hread
      | true =>
        rw [allocate_newBlock a s hc]
        dsimp only
        rw [List.getElem?_append, if_pos hb, hblk0]
        simpa using hread
    · have hc2 : a.needNewBlock s = false := by
        cases hnb : a.needNewBlock s
        · rfl
        · exact absurd hnb hc
      obtain ⟨hcn, hle⟩ := needNewBlock_eq_false a s hc2
      rw [allocate_inBlock a s ok hc2]
      dsimp only
      by_cases hbidx : b = a.blocks.length - 1
      · subst hbidx
        obtain ⟨blkL, hlast, hbs, hnone⟩ := h.2 hcn
        have hidx : a.blocks[a.blocks.length - 1]? = some blkL := by
          rw [← List.getLast?_eq_getElem?]
          exact hlast
        have hblk0L : blk0 = blkL := by
          rw [hidx] at hblk0
          exact (Option.some_injective _ hblk0).symm
        subst hblk0L
        rw [modifyIdx_get?_eq, hidx]
        simp only [Option.map_some', Option.some_bind]
        rcases Option.map_eq_some'.1 hread with ⟨cs, hcs, ht⟩
        have hstable :
            readCStr ((writeList blk0.bytes (alignOffset a.currentOffset) (cstrBytes s)).drop off)
              = some cs := by
          apply readCStr_mono (blk0.bytes.drop off) _ ?_ ?_ cs hcs
          · rw [List.length_drop, List.length_drop, writeList_length]
          · intro i c hi
            rw [List.getElem?_drop] at hi ⊢
            by_cases h1 : off + i < alignOffset a.currentOffset
            · rw [writeList_get?_lt _ _ _ _ h1]
              exact hi
            · by_cases h2 : alignOffset a.currentOffset + (cstrBytes s).length ≤ off + i
              · rw [writeList_get?_ge _ _ _ _ h2]
                exact hi
              · exfalso
                have hge := alignOffset_ge a.currentOffset
                exact hnone (off + i) c (by omega) hi
        rw [hstable]
        simpa using ht
      · rw [modifyIdx_get?_ne _ _ _ _ hbidx, hblk0]
        simpa using hread

theorem allocate_blocks_retained (a : StringArena) (s : String) (ok : Bool) :
    a.blocks.length ≤ ((a.allocate s ok).2).blocks.length ∧
    ∀ b, b < a.blocks.length →
      (((a.allocate s ok).2).blocks[b]?).map ArenaBlock.size
        = (a.blocks[b]?).map ArenaBlock.size := by
  by_cases hc : a.needNewBlock s = true
  · cases ok with
    | false =>
      rw [allocate_mallocFail a s hc]
      exact ⟨le_refl _, fun b _ => rfl⟩
    | true =>
      rw [allocate_newBlock a s hc]
      constructor
      · dsimp only
        rw [List.length_append]
        omega
      · intro b hb
        dsimp only
        rw [List.getElem?_append, if_pos hb]
  · have hc2 : a.needNewBlock s = false := by
      cases hnb : a.needNewBlock s
      · rfl
      · exact absurd hnb hc
    rw [allocate_inBlock a s ok hc2]
    constructor
    · dsimp only
      rw [modifyIdx_length]
    · intro b hb
      dsimp only
      by_cases hbidx : b = a.blocks.length - 1
      · subst hbidx
        rw [modifyIdx_get?_eq]
        cases a.blocks[a.blocks.length - 1]? <;> rfl
      · rw [modifyIdx_get?_ne _ _ _ _ hbidx]

theorem allocMany_cons (a : StringArena) (x : String × Bool) (xs : List (String × Bool)) :
    a.allocMany (x :: xs) = ((a.allocate x.1 x.2).2).allocMany xs := rfl

theorem allocMany_WF (a : StringArena) (l : List (String × Bool)) (h : a.WF) :
    (a.allocMany l).WF := by
  induction l generalizing a with
  | nil => exact h
  | cons x xs ih =>
    rw [allocMany_cons]
    exact ih _ (allocate_WF a x.1 x.2 h)

/-- C6: for every sequence of `StringArena::allocate` calls, no call mutates
or moves the bytes of a previously returned allocation — a pointer that
dereferenced to some null-terminated contents still dereferences to the same
contents after any number of later allocations — and the arena only appends:
the block list never shrinks and every existing block keeps its identity
(size) until teardown. -/
theorem C6_arena_stability (a : StringArena) (l : List (String × Bool)) (p : APtr)
    (s : String) (hwf : a.WF) (hd : a.deref p = some s) :
    (a.allocMany l).deref p = some s ∧
    a.blocks.length ≤ (a.allocMany l).blocks.length ∧
    ∀ b, b < a.blocks.length →
      ((a.allocMany l).blocks[b]?).map ArenaBlock.size
        = (a.blocks[b]?).map ArenaBlock.size := by
  induction l generalizing a with
  | nil => exact ⟨hd, le_refl _, fun b _ => rfl⟩
  | cons x xs ih =>
    rw [allocMany_cons]
    obtain ⟨d, hlen, hget⟩ := ih ((a.allocate x.1 x.2).2) (allocate_WF a x.1 x.2 hwf)
      (allocate_deref_stable a x.1 x.2 hwf p s hd)
    obtain ⟨hlen1, hget1⟩ := allocate_blocks_retained a x.1 x.2
    refine ⟨d, le_trans hlen1 hlen, ?_⟩
    intro b hb
    rw [hget b (lt_of_lt_of_le hb hlen1), hget1 b hb]

theorem C6_witness :
    (((StringArena.mkArena 16).allocate "hi" true).2).deref (APtr.blk 0 0) = some "hi" ∧
    ((((StringArena.mkArena 16).allocate "hi" true).2).allocMany
        [("world", true), ("", false), ("yz", true)]).deref (APtr.blk 0 0) = some "hi" :=
  ⟨by decide,
   (C6_arena_stability (((StringArena.mkArena 16).allocate "hi" true).2)
      [("world", true), ("", false), ("yz", true)] (APtr.blk 0 0) "hi"
      (allocate_WF _ _ _ (mkArena_WF 16)) (by decide)).1⟩

/-- C7 (amended): when an allocation does not fit and a new block is
allocated, the new block has size `max(block_size_, requested_size)` — where
`block_size_` starts at the constructor's block size (`DEFAULT_BLOCK_SIZE`
by default) but is updated to each new block's size — it becomes the current
block, and the old blocks are all retained in the block list. -/
theorem C7_new_block (a : StringArena) (s : String) (hc : a.needNewBlock s = true) :
    ((a.allocate s true).2).blocks
        = a.blocks ++ [⟨max a.blockSize (s.length + 1),
            writeList (List.replicate (max a.blockSize (s.length + 1)) none) 0 (cstrBytes s)⟩] ∧
    ((a.allocate s true).2).blockSize = max a.blockSize (s.length + 1) ∧
    ((a.allocate s true).2).curNull = false ∧
    (a.allocate s true).1 = APtr.blk a.blocks.length 0 := by
  rw [allocate_newBlock a s hc]
  exact ⟨rfl, rfl, rfl, rfl⟩

theorem C7_witness :
    (StringArena.mkArena 8).needNewBlock "abcdefgh" = true ∧
    (((StringArena.mkArena 8).allocate "abcdefgh" true).2).blockSize
      = max (StringArena.mkArena 8).blockSize ("abcdefgh".length + 1) :=
  ⟨by decide, (C7_new_block (StringArena.mkArena 8) "abcdefgh" (by decide)).2.1⟩

theorem oversized_then_second_block (s1 s2 : String)
    (h1 : defaultBlockSize < s1.length + 1) :
    ((StringArena.mkDefault.allocate s1 true).2).needNewBlock s2 = true ∧
    ((((StringArena.mkDefault.allocate s1 true).2).allocate s2 true).2.blocks.getLast?).map
        ArenaBlock.size = some (max (s1.length + 1) (s2.length + 1)) := by
  have hc1 : StringArena.mkDefault.needNewBlock s1 = true := by
    unfold StringArena.needNewBlock StringArena.mkDefault StringArena.mkArena
    rfl
  have hbs : StringArena.mkDefault.blockSize = defaultBlockSize := rfl
  have hmax1 : max StringArena.mkDefault.blockSize (s1.length + 1) = s1.length + 1 := by
    rw [hbs]
    omega
  have hc2 : (⟨StringArena.mkDefault.blocks ++
      [⟨max StringArena.mkDefault.blockSize (s1.length + 1),
        writeList (List.replicate (max StringArena.mkDefault.blockSize (s1.length + 1)) none) 0
          (cstrBytes s1)⟩], false, s1.length + 1,
      max StringArena.mkDefault.blockSize (s1.length + 1)⟩ : StringArena).needNewBlock s2
        = true := by
    unfold StringArena.needNewBlock
    have hge := alignOffset_ge (s1.length + 1)
    simp only [Bool.false_or, decide_eq_true_eq, hmax1]
    omega
  constructor
  · rw [allocate_newBlock _ _ hc1]
    exact hc2
  · rw [allocate_newBlock _ _ hc1, allocate_newBlock _ _ hc2]
    simp only [List.getLast?_concat, Option.map_some', hmax1]

/-- C7 counterexample: after one oversized allocation (8199 characters,
required 8200 bytes) on a default-constructed arena, the next allocation
that needs a new block (the empty string, requested size 1) allocates a
block of size 8200, not `max(DEFAULT_BLOCK_SIZE, requested_size) = 8192`:
the code sizes new blocks by the updated `block_size_` field, not by the
default block size. -/
theorem C7_counterexample :
    ((StringArena.mkDefault.allocate (String.mk (List.replicate 8199 'a')) true).2).needNewBlock
        "" = true ∧
    ((((StringArena.mkDefault.allocate (String.mk (List.replicate 8199 'a')) true).2).allocate
        "" true).2.blocks.getLast?).map ArenaBlock.size = some 8200 ∧
    max defaultBlockSize ("".length + 1) = 8192 := by
  have hlen : (String.mk (List.replicate 8199 'a')).length = 8199 := by
    show (List.replicate 8199 'a').length = 8199
    exact List.length_replicate 8199 'a'
  have h1 : defaultBlockSize < (String.mk (List.replicate 8199 'a')).length + 1 := by
    rw [hlen]
    norm_num [defaultBlockSize]
  obtain ⟨hneed, hsize⟩ := oversized_then_second_block (String.mk (List.replicate 8199 'a')) "" h1
  refine ⟨hneed, ?_, by norm_num [defaultBlockSize]⟩
  rw [hsize, hlen]
  norm_num

/-- C8: `StringArena::allocate` never returns a null pointer and never
propagates an error (it is total, and its result always dereferences to a
null-terminated string); when a new block is needed and the underlying
`malloc` fails, it returns the process-wide static empty string instead of
failing. -/
theorem C8_allocate_total (a : StringArena) (s : String) (ok : Bool) (hwf : a.WF) :
    (a.allocate s ok).1 ≠ APtr.null ∧
    (∃ r, ((a.allocate s ok).2).deref (a.allocate s ok).1 = some r) ∧
    (a.needNewBlock s = true → ok = false →
      (a.allocate s ok).1 = APtr.staticEmpty ∧
      ((a.allocate s ok).2).deref APtr.staticEmpty = some "") := by
  by_cases hc : a.needNewBlock s = true
  · cases ok with
    | false =>
      rw [allocate_mallocFail a s hc]
      exact ⟨by simp, ⟨"", rfl⟩, fun _ _ => ⟨rfl, rfl⟩⟩
    | true =>
      rw [allocate_newBlock a s hc]
      refine ⟨by simp, ?_, fun _ h => by simp at h⟩
      dsimp only [StringArena.deref]
      rw [List.getElem?_concat_length]
      simp only [Option.some_bind]
      have hfit : 0 + (cstrBytes s).length
          ≤ (List.replicate (max a.blockSize (s.length + 1)) (none : Option Char)).length := by
        rw [cstrBytes_length, List.length_replicate]
        omega
      have hw := writeList_drop (List.replicate (max a.blockSize (s.length + 1)) none) 0
        (cstrBytes s) hfit
      rw [List.drop_zero] at hw
      rw [hw, cstrBytes_append, List.drop_zero]
      obtain ⟨out, hout⟩ := readCStr_terminated s.data _
      exact ⟨⟨out⟩, by rw [hout]; rfl⟩
  · have hc2 : a.needNewBlock s = false := by
      cases hnb : a.needNewBlock s
      · rfl
      · exact absurd hnb hc
    obtain ⟨hcn, hle⟩ := needNewBlock_eq_false a s hc2
    obtain ⟨blkL, hlast, hbs, hnone⟩ := hwf.2 hcn
    have hidx : a.blocks[a.blocks.length - 1]? = some blkL := by
      rw [← List.getLast?_eq_getElem?]
      exact hlast
    have hblkwf : blkL.bytes.length = blkL.size := by
      rcases List.getElem?_eq_some.1 hidx with ⟨hl, he⟩
      exact hwf.1 blkL (he ▸ List.getElem_mem hl)
    rw [allocate_inBlock a s ok hc2]
    refine ⟨by simp, ?_, fun h _ => absurd h (by rw [hc2]; simp)⟩
    dsimp only [StringArena.deref]
    rw [modifyIdx_get?_eq, hidx]
    simp only [Option.map_some', Option.some_bind]
    have hw := writeList_drop blkL.bytes (alignOffset a.currentOffset) (cstrBytes s)
      (by rw [cstrBytes_length, hblkwf]; omega)
    rw [hw, cstrBytes_append]
    obtain ⟨out, hout⟩ := readCStr_terminated s.data _
    exact ⟨⟨out⟩, by rw [hout]; rfl⟩

theorem C8_witness :
    ((StringArena.mkArena 4).allocate "abc" false).1 = APtr.staticEmpty ∧
    (((StringArena.mkArena 4).allocate "abc" false).2).deref APtr.staticEmpty = some "" :=
  (C8_allocate_total (StringArena.mkArena 4) "abc" false (mkArena_WF 4)).2.2 (by decide) rfl

theorem materialize_eq_filter_map (f : EngineWord → UToken) (ws : List EngineWord) :
    materialize f ws = (ws.filter (fun w => decide (0 < w.id))).map f := by
  induction ws with
  | nil => rfl
  | cons w ws ih =>
    simp only [materialize, List.filter_cons]
    by_cases h : w.id ≤ 0
    · have hd : decide (0 < w.id) = false := by
        simp only [decide_eq_false_iff_not]
        omega
      rw [if_pos h, hd]
      simpa using ih
    · have hd : decide (0 < w.id) = true := by
        simp only [decide_eq_true_eq]
        omega
      rw [if_neg h, hd]
      simp [ih]

theorem mem_materialize (f : EngineWord → UToken) (ws : List EngineWord) (tok : UToken)
    (h : tok ∈ materialize f ws) : ∃ w, w ∈ ws ∧ tok = f w := by
  induction ws with
  | nil => simp [materialize] at h
  | cons w ws ih =>
    simp only [materialize] at h
    by_cases hw : w.id ≤ 0
    · rw [if_pos hw] at h
      rcases ih h with ⟨y, hy, ht⟩
      exact ⟨y, List.mem_cons_of_mem w hy, ht⟩
    · rw [if_neg hw] at h
      rcases List.mem_cons.1 h with h | h
      · exact ⟨w, List.mem_cons_self w ws, h⟩
      · rcases ih h with ⟨y, hy, ht⟩
        exact ⟨y, List.mem_cons_of_mem w hy, ht⟩

theorem runLoopTag_ok (dp : Bool) (l : List IterResult) (h : (runLoopTag dp l).2 = true) :
    (runLoopTag dp l).1 = l.map (fun it => materialize mkTokenTagged (wordsOf dp it)) := by
  induction l with
  | nil => rfl
  | cons it rest ih =>
    by_cases h1 : it.tokErr = true
    · simp [runLoopTag, h1] at h
    · by_cases h2 : it.tagOk = true
      · by_cases h3 : (dp && !it.parseOk) = true
        · simp only [Bool.not_eq_true] at h1
          simp [runLoopTag, h1, h2, h3] at h
        · by_cases h4 : it.allocOk = true
          · simp only [Bool.not_eq_true] at h1 h3
            simp [runLoopTag, h1, h2, h3, h4] at h ⊢
            exact ih h
          · simp only [Bool.not_eq_true] at h1 h3 h4
            simp [runLoopTag, h1, h2, h3, h4] at h
      · simp only [Bool.not_eq_true] at h1 h2
        simp [runLoopTag, h1, h2] at h

theorem runLoopTok_ok (l : List IterResult) (h : (runLoopTok l).2 = true) :
    (runLoopTok l).1 = l.map (fun it => materialize mkTokenTok it.sent) := by
  induction l with
  | nil => rfl
  | cons it rest ih =>
    by_cases h1 : it.tokErr = true
    · simp [runLoopTok, h1] at h
    · by_cases h4 : it.allocOk = true
      · simp only [Bool.not_eq_true] at h1
        simp [runLoopTok, h1, h4] at h ⊢
        exact ih h
      · simp only [Bool.not_eq_true] at h1 h4
        simp [runLoopTok, h1, h4] at h

theorem buildDoc_shape (m : EngineModel) (dp fa : Bool) (t : String) :
    buildDoc m dp fa t = (0, failDoc) ∨
    (buildDoc m dp fa t
        = (1, ⟨some ((m.run "" t).iters.map (fun it => materialize mkTokenTagged (wordsOf dp it))),
            ((m.run "" t).iters.map (fun it => materialize mkTokenTagged (wordsOf dp it))).length,
            some ()⟩)
      ∧ fa = true) := by
  unfold buildDoc
  by_cases h0 : m.newTokenizerOk "" = true
  · by_cases hl : (runLoopTag dp (m.run "" t).iters).2 = true
    · by_cases hf : (m.run "" t).finalErr = true
      · simp [h0, hl, hf]
      · by_cases hfa : fa = true
        · right
          subst hfa
          simp only [Bool.not_eq_true] at hf
          refine ⟨?_, rfl⟩
          simp [h0, hl, hf, runLoopTag_ok dp _ hl]
        · simp only [Bool.not_eq_true] at hf hfa
          simp [h0, hl, hf, hfa]
    · simp only [Bool.not_eq_true] at hl
      simp [h0, hl]
  · simp only [Bool.not_eq_true] at h0
    simp [h0]

theorem buildTokDoc_shape (m : EngineModel) (opts : String) (fa : Bool) (t : String) :
    buildTokDoc m opts fa t = (0, failDoc) ∨
    (buildTokDoc m opts fa t
        = (1, ⟨some ((m.run opts t).iters.map (fun it => materialize mkTokenTok it.sent)),
            ((m.run opts t).iters.map (fun it => materialize mkTokenTok it.sent)).length,
            some ()⟩)
      ∧ fa = true) := by
  unfold buildTokDoc
  by_cases h0 : m.newTokenizerOk opts = true
  · by_cases hl : (runLoopTok (m.run opts t).iters).2 = true
    · by_cases hf : (m.run opts t).finalErr = true
      · simp [h0, hl, hf]
      · by_cases hfa : fa = true
        · right
          subst hfa
          simp only [Bool.not_eq_true] at hf
          refine ⟨?_, rfl⟩
          simp [h0, hl, hf, runLoopTok_ok _ hl]
        · simp only [Bool.not_eq_true] at hf hfa
          simp [h0, hl, hf, hfa]
    · simp only [Bool.not_eq_true] at hl
      simp [h0, hl]
  · simp only [Bool.not_eq_true] at h0
    simp [h0]

/-- C2 counterexample: on a failing call with non-null arguments (here the
engine's `new_tokenizer` returns null), `udpipe_tag_structured` returns 0
with sentences null and count 0, but the arena pointer in the output is NOT
null — the arena created on entry stays attached. -/
theorem C2_counterexample :
    udpipe_tag_structured (some engNoTok) (some "x") false true zeroDoc = (0, failDoc) ∧
    failDoc.arena ≠ none := by
  constructor
  · decide
  · decide

/-- C2 (amended): on every failure of `udpipe_tag_structured` or
`udpipe_tokenize_structured` with non-null arguments, the output has
sentences null and count 0, but its arena field holds the still-live arena
created on entry (it is not null); passing such an output to
`udpipe_free_doc` is safe — at the heap level, freeing a doc of this shape
whose arena handle is live succeeds and leaves the doc fully zeroed.  With a
null argument the call fails without touching the output at all. -/
theorem C2_failure_shape (m : EngineModel) (t : String) (dp fa : Bool)
    (opts : Option String) (outInit : UDoc) (heap : Heap) (ar : Nat) :
    ((udpipe_tag_structured (some m) (some t) dp fa outInit).1 = 0 →
      (udpipe_tag_structured (some m) (some t) dp fa outInit).2 = failDoc) ∧
    ((udpipe_tokenize_structured (some m) (some t) opts fa outInit).1 = 0 →
      (udpipe_tokenize_structured (some m) (some t) opts fa outInit).2 = failDoc) ∧
    udpipe_tag_structured none (some t) dp fa outInit = (0, outInit) ∧
    (ar ∈ heap →
      udpipe_free_doc_heap heap ⟨none, 0, some ar⟩ = some (heap.erase ar, zeroHDoc)) ∧
    failDoc.sentences = none ∧ failDoc.count = 0 ∧ failDoc.arena ≠ none := by
  refine ⟨?_, ?_, rfl, ?_, rfl, rfl, by simp [failDoc]⟩
  · intro h
    rcases buildDoc_shape m dp fa t with hs | ⟨hs, _⟩
    · show (buildDoc m dp fa t).2 = failDoc
      rw [hs]
    · have h3 : (buildDoc m dp fa t).1 = 0 := h
      rw [hs] at h3
      simp at h3
  · intro h
    rcases buildTokDoc_shape m (opts.getD "") fa t with hs | ⟨hs, _⟩
    · show (buildTokDoc m (opts.getD "") fa t).2 = failDoc
      rw [hs]
    · have h3 : (buildTokDoc m (opts.getD "") fa t).1 = 0 := h
      rw [hs] at h3
      simp at h3
  · intro h
    unfold udpipe_free_doc_heap heapFree
    simp [h]

theorem C2_witness :
    (udpipe_tag_structured (some engNoTok) (some "x") false true zeroDoc).1 = 0 ∧
    (udpipe_tag_structured (some engNoTok) (some "x") false true zeroDoc).2 = failDoc ∧
    (5 : Nat) ∈ ([5] : Heap) ∧
    udpipe_free_doc_heap [5] ⟨none, 0, some 5⟩ = some (([5] : Heap).erase 5, zeroHDoc) :=
  ⟨by decide,
   (C2_failure_shape engNoTok "x" false true none zeroDoc [5] 5).1 (by decide),
   by decide,
   (C2_failure_shape engNoTok "x" false true none zeroDoc [5] 5).2.2.2.1 (by decide)⟩

/-- C3: on every success of `udpipe_tag_structured`, the output sentences
are exactly the engine's sentences in order, each materialized by keeping —
in their original order — precisely the words with id > 0 (words with
id ≤ 0 are excluded); the document's count equals the number of sentences
the engine produced, and the i-th sentence's token count equals the number
of words with id > 0 in the i-th engine sentence (the countP identity
below applied pointwise through the map). -/
theorem C3_materializer (m : EngineModel) (t : String) (dp fa : Bool) (outInit : UDoc)
    (h : (udpipe_tag_structured (some m) (some t) dp fa outInit).1 = 1) :
    (udpipe_tag_structured (some m) (some t) dp fa outInit).2.sentences
        = some ((m.run "" t).iters.map
            (fun it => ((wordsOf dp it).filter (fun w => decide (0 < w.id))).map mkTokenTagged)) ∧
    (udpipe_tag_structured (some m) (some t) dp fa outInit).2.count
        = (m.run "" t).iters.length ∧
    ∀ it : IterResult,
      (((wordsOf dp it).filter (fun w => decide (0 < w.id))).map mkTokenTagged).length
        = (wordsOf dp it).countP (fun w => decide (0 < w.id)) := by
  rcases buildDoc_shape m dp fa t with hs | ⟨hs, _⟩
  · exfalso
    have h2 : (buildDoc m dp fa t).1 = 1 := h
    rw [hs] at h2
    simp at h2
  · have h2 : (udpipe_tag_structured (some m) (some t) dp fa outInit).2 = (buildDoc m dp fa t).2 := rfl
    rw [h2, hs]
    refine ⟨?_, ?_, ?_⟩
    · show some _ = some _
      congr 1
      apply List.map_congr_left
      intro it _
      rw [materialize_eq_filter_map]
    · show (List.map _ _).length = _
      rw [List.length_map]
    · intro it
      rw [List.length_map, ← List.countP_eq_length_filter]

theorem C3_witness :
    (udpipe_tag_structured (some engOk) (some "x") false true zeroDoc).1 = 1 ∧
    (udpipe_tag_structured (some engOk) (some "x") false true zeroDoc).2.sentences
        = some ((engOk.run "" "x").iters.map
            (fun it => ((wordsOf false it).filter (fun w => decide (0 < w.id))).map mkTokenTagged)) ∧
    (udpipe_tag_structured (some engOk) (some "x") false true zeroDoc).2.count
        = (engOk.run "" "x").iters.length :=
  ⟨by decide,
   (C3_materializer engOk "x" false true zeroDoc (by decide)).1,
   (C3_materializer engOk "x" false true zeroDoc (by decide)).2.1⟩

/-- C4: on every success of `udpipe_tokenize_structured`, every token of
every sentence of the returned document has head -1 and empty
lemma/upos/xpostag/feats/deprel. -/
theorem C4_tokenize_fields (m : EngineModel) (t : String) (opts : Option String)
    (fa : Bool) (outInit : UDoc)
    (h : (udpipe_tokenize_structured (some m) (some t) opts fa outInit).1 = 1) :
    ∃ views, (udpipe_tokenize_structured (some m) (some t) opts fa outInit).2.sentences
        = some views ∧
      ∀ sent ∈ views, ∀ tok ∈ sent,
        tok.head = -1 ∧ tok.«lemma» = "" ∧ tok.upos = "" ∧ tok.xpostag = "" ∧
        tok.feats = "" ∧ tok.deprel = "" := by
  rcases buildTokDoc_shape m (opts.getD "") fa t with hs | ⟨hs, _⟩
  · exfalso
    have h2 : (buildTokDoc m (opts.getD "") fa t).1 = 1 := h
    rw [hs] at h2
    simp at h2
  · have h2 : (udpipe_tokenize_structured (some m) (some t) opts fa outInit).2
        = (buildTokDoc m (opts.getD "") fa t).2 := rfl
    rw [h2, hs]
    refine ⟨_, rfl, ?_⟩
    intro sent hsent tok htok
    rcases List.mem_map.1 hsent with ⟨it, _, hit⟩
    subst hit
    rcases mem_materialize _ _ _ htok with ⟨w, _, ht⟩
    subst ht
    exact ⟨rfl, rfl, rfl, rfl, rfl, rfl⟩

theorem C4_witness :
    (udpipe_tokenize_structured (some engOk) (some "x") none true zeroDoc).1 = 1 ∧
    ∃ views, (udpipe_tokenize_structured (some engOk) (some "x") none true zeroDoc).2.sentences
        = some views ∧
      ∀ sent ∈ views, ∀ tok ∈ sent,
        tok.head = -1 ∧ tok.«lemma» = "" ∧ tok.upos = "" ∧ tok.xpostag = "" ∧
        tok.feats = "" ∧ tok.deprel = "" :=
  ⟨by decide, C4_tokenize_fields engOk "x" none true zeroDoc (by decide)⟩

/-- C9: udpipe_free_doc is idempotent on released documents: any completed
release zeroes all fields of the document, releasing an already-zeroed
document never faults and leaves the heap and the document unchanged, so a
second release of a released document is a safe no-op. -/
theorem C9_free_doc_idempotent (heap : Heap) (d : HDoc) (heap2 : Heap) (d2 : HDoc)
    (h : udpipe_free_doc_heap heap d = some (heap2, d2)) :
    d2 = zeroHDoc ∧
    udpipe_free_doc_heap heap2 d2 = some (heap2, zeroHDoc) ∧
    ∀ hp : Heap, udpipe_free_doc_heap hp zeroHDoc = some (hp, zeroHDoc) := by
  have hd2 : d2 = zeroHDoc := by
    unfold udpipe_free_doc_heap at h
    rcases Option.bind_eq_some.1 h with ⟨h1, _, hrest⟩
    rcases Option.map_eq_some'.1 hrest with ⟨h2, _, heq⟩
    exact (congrArg Prod.snd heq).symm
  subst hd2
  exact ⟨rfl, rfl, fun hp => rfl⟩

theorem C9_witness :
    udpipe_free_doc_heap [0, 1, 2] ⟨some (2, [⟨some 1, 7⟩]), 1, some 0⟩
        = some ([], zeroHDoc) ∧
    udpipe_free_doc_heap [] zeroHDoc = some ([], zeroHDoc) :=
  ⟨by decide,
   (C9_free_doc_idempotent [0, 1, 2] ⟨some (2, [⟨some 1, 7⟩]), 1, some 0⟩ [] zeroHDoc
      (by decide)).2.1⟩

/-- C10: calling `udpipe_tokenize_structured` with a null
`tokenizer_options` pointer returns the same result and produces the same
document as calling it with the empty string: the null options value is
normalized to "" before the tokenizer is created. -/
theorem C10_null_options (m : Option EngineModel) (t : Option String) (fa : Bool)
    (outInit : UDoc) :
    udpipe_tokenize_structured m t none fa outInit
      = udpipe_tokenize_structured m t (some "") fa outInit := by
  cases m <;> cases t <;> rfl

theorem step_none (cfg : BatchCfg) (st : BState) (w : Nat)
    (h : st.workers[w]? = none) : step cfg st w = st := by
  unfold step
  rw [h]

theorem step_done (cfg : BatchCfg) (st : BState) (w : Nat)
    (h : st.workers[w]? = some WPhase.done) : step cfg st w = st := by
  unfold step
  rw [h]

theorem step_atHead (cfg : BatchCfg) (st : BState) (w : Nat)
    (h : st.workers[w]? = some WPhase.atHead) :
    step cfg st w =
      if st.flag then setPhase st w WPhase.readyToClaim else setPhase st w WPhase.done := by
  unfold step
  rw [h]

theorem step_ready (cfg : BatchCfg) (st : BState) (w : Nat)
    (h : st.workers[w]? = some WPhase.readyToClaim) :
    step cfg st w =
      if st.nextIndex < cfg.texts.length then
        setPhase ({ st with nextIndex := st.nextIndex + 1 }) w (WPhase.holding st.nextIndex)
      else setPhase ({ st with nextIndex := st.nextIndex + 1 }) w WPhase.done := by
  unfold step
  rw [h]

theorem step_holding (cfg : BatchCfg) (st : BState) (w : Nat) (i : Nat)
    (h : st.workers[w]? = some (WPhase.holding i)) :
    step cfg st w =
      setPhase
        (BState.mk st.nextIndex (st.flag && ((slotResult cfg i).1 == 1))
          (st.slots.set i (slotResult cfg i).2) st.workers) w WPhase.atHead := by
  unfold step
  rw [h]

theorem setPhase_get?_self (st : BState) (w : Nat) (ph : WPhase)
    (hlt : w < st.workers.length) : (setPhase st w ph).workers[w]? = some ph := by
  show (st.workers.set w ph)[w]? = some ph
  rw [List.getElem?_set]
  simp [hlt]

theorem setPhase_get?_ne (st : BState) (w : Nat) (ph : WPhase) (w2 : Nat)
    (hne : w2 ≠ w) : (setPhase st w ph).workers[w2]? = st.workers[w2]? := by
  show (st.workers.set w ph)[w2]? = st.workers[w2]?
  rw [List.getElem?_set]
  rw [if_neg (fun hh => hne hh.symm)]

theorem workerHolds_def (st : BState) (w i : Nat) :
    workerHolds st w i = (st.workers[w]? = some (WPhase.holding i)) := rfl

theorem setPhase_workers (st : BState) (w : Nat) (ph : WPhase) :
    (setPhase st w ph).workers = st.workers.set w ph := rfl

theorem setPhase_get?_self_inv (st : BState) (w : Nat) (ph ph2 : WPhase)
    (h : (setPhase st w ph).workers[w]? = some ph2) : ph2 = ph := by
  rw [setPhase_workers, List.getElem?_set] at h
  rw [if_pos rfl] at h
  split at h
  · exact (Option.some_injective _ h).symm
  · simp at h

theorem BInv_setPhase (cfg : BatchCfg) (st : BState) (w : Nat) (ph : WPhase)
    (h : BInv cfg st)
    (hwold : ∀ i : Nat, ¬ workerHolds st w i)
    (hphnew : ∀ i : Nat, ph ≠ WPhase.holding i)
    (hnewdone : st.flag = true → ph = WPhase.done → cfg.texts.length ≤ st.nextIndex) :
    BInv cfg (setPhase st w ph) := by
  obtain ⟨hlen, hbound, hflag, hdone⟩ := h
  refine ⟨hlen, ?_, ?_, ?_⟩
  · intro w2 i hh
    rw [workerHolds_def] at hh
    by_cases hww : w2 = w
    · subst hww
      exact absurd (setPhase_get?_self_inv st w2 ph _ hh).symm (hphnew i)
    · rw [setPhase_get?_ne st w ph w2 hww] at hh
      exact hbound w2 i hh
  · intro hfl i hi hin
    rcases hflag hfl i hi hin with ⟨w2, hw2⟩ | hr
    · left
      have hww : w2 ≠ w := fun e => hwold i (e ▸ hw2)
      refine ⟨w2, ?_⟩
      rw [workerHolds_def, setPhase_get?_ne st w ph w2 hww]
      exact hw2
    · exact Or.inr hr
  · intro hfl w2 hw2
    by_cases hww : w2 = w
    · subst hww
      exact hnewdone hfl (setPhase_get?_self_inv st w2 ph _ hw2).symm
    · rw [setPhase_get?_ne st w ph w2 hww] at hw2
      exact hdone hfl w2 hw2

theorem BInv_step (cfg : BatchCfg) (st : BState) (w : Nat) (h : BInv cfg st) :
    BInv cfg (step cfg st w) := by
  obtain ⟨hlen, hbound, hflag, hdone⟩ := h
  cases hw : st.workers[w]? with
  | none =>
    rw [step_none cfg st w hw]
    exact ⟨hlen, hbound, hflag, hdone⟩
  | some ph =>
    have hwlt : w < st.workers.length := by
      rcases List.getElem?_eq_some.1 hw with ⟨hl, _⟩
      exact hl
    cases ph with
    | done =>
      rw [step_done cfg st w hw]
      exact ⟨hlen, hbound, hflag, hdone⟩
    | atHead =>
      rw [step_atHead cfg st w hw]
      have hwold : ∀ i : Nat, ¬ workerHolds st w i := by
        intro i hh
        rw [workerHolds_def, hw] at hh
        simp at hh
      by_cases hf : st.flag
      · rw [if_pos hf]
        exact BInv_setPhase cfg st w WPhase.readyToClaim ⟨hlen, hbound, hflag, hdone⟩
          hwold (fun i => by simp) (fun _ hcon => by simp at hcon)
      · rw [if_neg hf]
        exact BInv_setPhase cfg st w WPhase.done ⟨hlen, hbound, hflag, hdone⟩
          hwold (fun i => by simp) (fun hfl _ => absurd hfl hf)
    | readyToClaim =>
      rw [step_ready cfg st w hw]
      by_cases hlt : st.nextIndex < cfg.texts.length
      · rw [if_pos hlt]
        refine ⟨hlen, ?_, ?_, ?_⟩
        · intro w2 i hh
          rw [workerHolds_def] at hh
          by_cases hww : w2 = w
          · subst hww
            have := setPhase_get?_self_inv _ w2 _ _ hh
            have hii : i = st.nextIndex := by
              cases this
              rfl
            constructor
            · show i < st.nextIndex + 1
              omega
            · rw [hii]
              exact hlt
          · rw [setPhase_get?_ne _ w _ w2 hww] at hh
            obtain ⟨h1, h2⟩ := hbound w2 i hh
            refine ⟨?_, h2⟩
            show i < st.nextIndex + 1
            omega
        · intro hfl i hi hin
          by_cases hii : i = st.nextIndex
          · subst hii
            left
            refine ⟨w, ?_⟩
            rw [workerHolds_def]
            exact setPhase_get?_self _ w _ hwlt
          · have hi2 : i < st.nextIndex := by
              have hi3 : i < st.nextIndex + 1 := hi
              omega
            rcases hflag hfl i hi2 hin with ⟨w2, hw2⟩ | hr
            · left
              have hww : w2 ≠ w := by
                intro e
                subst e
                rw [workerHolds_def, hw] at hw2
                simp at hw2
              refine ⟨w2, ?_⟩
              rw [workerHolds_def, setPhase_get?_ne _ w _ w2 hww]
              exact hw2
            · exact Or.inr hr
        · intro hfl w2 hw2
          by_cases hww : w2 = w
          · subst hww
            exact absurd (setPhase_get?_self_inv _ w2 _ _ hw2) (by simp)
          · rw [setPhase_get?_ne _ w _ w2 hww] at hw2
            have := hdone hfl w2 hw2
            show cfg.texts.length ≤ st.nextIndex + 1
            omega
      · rw [if_neg hlt]
        have hst2 : BInv cfg ({ st with nextIndex := st.nextIndex + 1 }) := by
          refine ⟨hlen, ?_, ?_, ?_⟩
          · intro w2 i hh
            obtain ⟨h1, h2⟩ := hbound w2 i hh
            refine ⟨?_, h2⟩
            show i < st.nextIndex + 1
            omega
          · intro hfl i hi hin
            have hi2 : i < st.nextIndex := by omega
            exact hflag hfl i hi2 hin
          · intro _ w2 _
            show cfg.texts.length ≤ st.nextIndex + 1
            omega
        refine BInv_setPhase cfg _ w WPhase.done hst2 ?_ (fun i => by simp) ?_
        · intro i hh
          rw [workerHolds_def] at hh
          have hh2 : st.workers[w]? = some (WPhase.holding i) := hh
          rw [hw] at hh2
          simp at hh2
        · intro _ _
          show cfg.texts.length ≤ st.nextIndex + 1
          omega
    | holding i =>
      rw [step_holding cfg st w i hw]
      obtain ⟨hbi1, hbi2⟩ := hbound w i (by rw [workerHolds_def, hw])
      refine ⟨?_, ?_, ?_, ?_⟩
      · show (st.slots.set i (slotResult cfg i).2).length = _
        rw [List.length_set]
        exact hlen
      · intro w2 i2 hh
        rw [workerHolds_def] at hh
        by_cases hww : w2 = w
        · subst hww
          exact absurd (setPhase_get?_self_inv _ w2 _ _ hh) (by simp)
        · rw [setPhase_get?_ne _ w _ w2 hww] at hh
          exact hbound w2 i2 hh
      · intro hfl i2 hi2 hin2
        have hfl2 : st.flag = true ∧ ((slotResult cfg i).1 == 1) = true := by
          have hfl3 : (st.flag && ((slotResult cfg i).1 == 1)) = true := hfl
          rw [Bool.and_eq_true] at hfl3
          exact hfl3
        by_cases hii : i2 = i
        · subst hii
          right
          constructor
          · show (st.slots.set i2 (slotResult cfg i2).2)[i2]? = _
            rw [List.getElem?_set, if_pos rfl]
            rw [if_pos (by rw [hlen]; exact hin2)]
          · exact eq_of_beq hfl2.2
        · rcases hflag hfl2.1 i2 hi2 hin2 with ⟨w2, hw2⟩ | ⟨hs, hok⟩
          · have hww : w2 ≠ w := by
              intro e
              subst e
              rw [workerHolds_def, hw] at hw2
              have he : WPhase.holding i = WPhase.holding i2 := Option.some_injective _ hw2
              cases he
              exact hii rfl
            left
            refine ⟨w2, ?_⟩
            rw [workerHolds_def, setPhase_get?_ne _ w _ w2 hww]
            exact hw2
          · right
            refine ⟨?_, hok⟩
            show (st.slots.set i (slotResult cfg i).2)[i2]? = _
            rw [List.getElem?_set, if_neg (fun e => hii e.symm)]
            exact hs
      · intro hfl w2 hw2
        have hfl2 : st.flag = true := by
          have hfl3 : (st.flag && ((slotResult cfg i).1 == 1)) = true := hfl
          rw [Bool.and_eq_true] at hfl3
          exact hfl3.1
        by_cases hww : w2 = w
        · subst hww
          exact absurd (setPhase_get?_self_inv _ w2 _ _ hw2) (by simp)
        · rw [setPhase_get?_ne _ w _ w2 hww] at hw2
          exact hdone hfl2 w2 hw2

theorem BInv_init (cfg : BatchCfg) (hw : Nat) : BInv cfg (initBState cfg hw) := by
  refine ⟨?_, ?_, ?_, ?_⟩
  · show (List.replicate cfg.texts.length zeroDoc).length = _
    rw [List.length_replicate]
  · intro w i hh
    rw [workerHolds_def] at hh
    have hh2 : (List.replicate (numThreads hw cfg.texts.length) WPhase.atHead)[w]?
        = some (WPhase.holding i) := hh
    rw [List.getElem?_replicate] at hh2
    split at hh2 <;> simp at hh2
  · intro _ i hi _
    have hi2 : i < 0 := hi
    omega
  · intro _ w hw2
    have hh2 : (List.replicate (numThreads hw cfg.texts.length) WPhase.atHead)[w]?
        = some WPhase.done := hw2
    rw [List.getElem?_replicate] at hh2
    split at hh2 <;> simp at hh2

theorem runSched_cons (cfg : BatchCfg) (st : BState) (e : Nat) (es : List Nat) :
    runSched cfg st (e :: es) = runSched cfg (step cfg st e) es := rfl

theorem BInv_runSched (cfg : BatchCfg) (st : BState) (sched : List Nat)
    (h : BInv cfg st) : BInv cfg (runSched cfg st sched) := by
  induction sched generalizing st with
  | nil => exact h
  | cons e es ih =>
    rw [runSched_cons]
    exact ih _ (BInv_step cfg st e h)

theorem step_workers_length (cfg : BatchCfg) (st : BState) (w : Nat) :
    (step cfg st w).workers.length = st.workers.length := by
  cases hw : st.workers[w]? with
  | none => rw [step_none cfg st w hw]
  | some ph =>
    cases ph with
    | done => rw [step_done cfg st w hw]
    | atHead =>
      rw [step_atHead cfg st w hw]
      split <;> rw [setPhase_workers, List.length_set]
    | readyToClaim =>
      rw [step_ready cfg st w hw]
      split <;> rw [setPhase_workers, List.length_set]
    | holding i =>
      rw [step_holding cfg st w i hw]
      rw [setPhase_workers, List.length_set]

theorem runSched_workers_length (cfg : BatchCfg) (st : BState) (sched : List Nat) :
    (runSched cfg st sched).workers.length = st.workers.length := by
  induction sched generalizing st with
  | nil => rfl
  | cons e es ih =>
    rw [runSched_cons, ih, step_workers_length]

theorem numThreads_pos (hw n : Nat) (h : 0 < n) : 0 < numThreads hw n := by
  unfold numThreads
  by_cases h0 : hw = 0
  · subst h0
    simp only [beq_self_eq_true, if_true]
    split <;> omega
  · have : (hw == 0) = false := by
      simp [h0]
    rw [this]
    simp only [Bool.false_eq_true, if_false]
    split <;> omega

theorem batch_success_state (cfg : BatchCfg) (hw : Nat) (sched : List Nat)
    (hdone : AllDone (runSched cfg (initBState cfg hw) sched))
    (hflag : (runSched cfg (initBState cfg hw) sched).flag = true) :
    ∀ i, i < cfg.texts.length →
      (runSched cfg (initBState cfg hw) sched).slots[i]? = some (slotResult cfg i).2 ∧
      (slotResult cfg i).1 = 1 := by
  obtain ⟨hlen, hbound, hflagc, hdonen⟩ := BInv_runSched cfg _ sched (BInv_init cfg hw)
  intro i hin
  have hwlen : (runSched cfg (initBState cfg hw) sched).workers.length
      = numThreads hw cfg.texts.length := by
    rw [runSched_workers_length]
    show (List.replicate _ WPhase.atHead).length = _
    rw [List.length_replicate]
  have hnt : 0 < numThreads hw cfg.texts.length := numThreads_pos hw _ (by omega)
  have h0lt : 0 < (runSched cfg (initBState cfg hw) sched).workers.length := by
    rw [hwlen]
    exact hnt
  have hph : (runSched cfg (initBState cfg hw) sched).workers[0]?
      = some ((runSched cfg (initBState cfg hw) sched).workers[0]) :=
    List.getElem?_eq_getElem h0lt
  have hmem : (runSched cfg (initBState cfg hw) sched).workers[0]
      ∈ (runSched cfg (initBState cfg hw) sched).workers :=
    List.getElem_mem h0lt
  have hphdone := hdone _ hmem
  rw [hphdone] at hph
  have hnext : cfg.texts.length ≤ (runSched cfg (initBState cfg hw) sched).nextIndex :=
    hdonen hflag 0 hph
  rcases hflagc hflag i (by omega) hin with ⟨w2, hw2⟩ | hr
  · exfalso
    rw [workerHolds_def] at hw2
    rcases List.getElem?_eq_some.1 hw2 with ⟨hl, he⟩
    have := hdone _ (he ▸ List.getElem_mem hl)
    simp at this
  · exact hr

theorem finishBatch_flagFalse (outAllocOk : Bool) (st : BState) (h : st.flag = false) :
    finishBatch outAllocOk st = ⟨0, none, 0, st.slots.map udpipe_free_doc⟩ := by
  unfold finishBatch
  rw [h]
  rfl

theorem finishBatch_ret_one (outAllocOk : Bool) (st : BState)
    (h : (finishBatch outAllocOk st).ret = 1) :
    st.flag = true ∧ outAllocOk = true ∧
    finishBatch outAllocOk st = ⟨1, some st.slots, st.slots.length, st.slots⟩ := by
  cases hf : st.flag with
  | false =>
    rw [finishBatch_flagFalse outAllocOk st hf] at h
    simp at h
  | true =>
    cases ho : outAllocOk with
    | false =>
      unfold finishBatch at h
      simp only [hf, ho] at h
      simp at h
    | true =>
      refine ⟨rfl, rfl, ?_⟩
      unfold finishBatch
      simp only [hf]
      rfl

/-- C1: udpipe_tag_batch is all-or-nothing: under any schedule that reaches
the join, if processing any single text fails then the call returns 0, the
caller receives no document array, and every slot of the local result
buffer has been passed through udpipe_free_doc (hence zeroed) before
returning; if the call returns 1, every slot of the returned array holds a
fully populated document (sentences attached, count matching, arena
owned). -/
theorem C1_batch_all_or_nothing (cfg : BatchCfg) (hw : Nat) (sched : List Nat)
    (outAllocOk : Bool)
    (hdone : AllDone (runSched cfg (initBState cfg hw) sched)) :
    ((∃ i, i < cfg.texts.length ∧ (slotResult cfg i).1 = 0) →
      (udpipe_tag_batch cfg hw sched outAllocOk).ret = 0 ∧
      (udpipe_tag_batch cfg hw sched outAllocOk).outDocs = none ∧
      (udpipe_tag_batch cfg hw sched outAllocOk).slotsAfter
        = (runSched cfg (initBState cfg hw) sched).slots.map udpipe_free_doc ∧
      (∀ d ∈ (udpipe_tag_batch cfg hw sched outAllocOk).slotsAfter, d = zeroDoc)) ∧
    ((udpipe_tag_batch cfg hw sched outAllocOk).ret = 1 →
      ∀ d ∈ (udpipe_tag_batch cfg hw sched outAllocOk).outDocs.getD [],
        ∃ vs, d.sentences = some vs ∧ d.count = vs.length ∧ d.arena = some ()) := by
  constructor
  · rintro ⟨i, hin, hfail⟩
    have hflag : (runSched cfg (initBState cfg hw) sched).flag = false := by
      cases hf : (runSched cfg (initBState cfg hw) sched).flag
      · rfl
      · exfalso
        have hone := (batch_success_state cfg hw sched hdone hf i hin).2
        rw [hfail] at hone
        simp at hone
    have heq : udpipe_tag_batch cfg hw sched outAllocOk
        = ⟨0, none, 0, (runSched cfg (initBState cfg hw) sched).slots.map udpipe_free_doc⟩ :=
      finishBatch_flagFalse outAllocOk _ hflag
    rw [heq]
    refine ⟨rfl, rfl, rfl, ?_⟩
    intro d hd
    rcases List.mem_map.1 hd with ⟨d0, _, hd0⟩
    rw [← hd0]
    rfl
  · intro hret d hd
    obtain ⟨hflag, hOk, heq⟩ := finishBatch_ret_one outAllocOk _ hret
    have hd2 : d ∈ (runSched cfg (initBState cfg hw) sched).slots := by
      have : (udpipe_tag_batch cfg hw sched outAllocOk).outDocs
          = some (runSched cfg (initBState cfg hw) sched).slots := by
        show (finishBatch outAllocOk _).outDocs = _
        rw [heq]
      rw [this] at hd
      exact hd
    rcases List.mem_iff_getElem?.1 hd2 with ⟨i, hi⟩
    have hlen := (BInv_runSched cfg _ sched (BInv_init cfg hw)).1
    have hin : i < cfg.texts.length := by
      rcases List.getElem?_eq_some.1 hi with ⟨hl, _⟩
      rw [hlen] at hl
      exact hl
    obtain ⟨hslot, hone⟩ := batch_success_state cfg hw sched hdone hflag i hin
    have hdval : d = (slotResult cfg i).2 := by
      rw [hi] at hslot
      exact Option.some_injective _ hslot
    rcases buildDoc_shape cfg.m cfg.doParse (cfg.slotAllocOk i) (cfg.texts.getD i "")
      with hs | ⟨hs, _⟩
    · exfalso
      have : (slotResult cfg i).1 = 0 := by
        show (buildDoc cfg.m cfg.doParse (cfg.slotAllocOk i) (cfg.texts.getD i "")).1 = 0
        rw [hs]
      rw [this] at hone
      simp at hone
    · refine ⟨(cfg.m.run "" (cfg.texts.getD i "")).iters.map
        (fun it => materialize mkTokenTagged (wordsOf cfg.doParse it)), ?_, ?_, ?_⟩
      · rw [hdval]
        show (buildDoc cfg.m cfg.doParse (cfg.slotAllocOk i) (cfg.texts.getD i "")).2.sentences = _
        rw [hs]
      · rw [hdval]
        show (buildDoc cfg.m cfg.doParse (cfg.slotAllocOk i) (cfg.texts.getD i "")).2.count = _
        rw [hs]
      · rw [hdval]
        show (buildDoc cfg.m cfg.doParse (cfg.slotAllocOk i) (cfg.texts.getD i "")).2.arena = _
        rw [hs]

theorem C1_witness :
    AllDone (runSched cfgFail (initBState cfgFail 1) schedFail) ∧
    (1 < cfgFail.texts.length ∧ (slotResult cfgFail 1).1 = 0) ∧
    (udpipe_tag_batch cfgFail 1 schedFail true).ret = 0 ∧
    (udpipe_tag_batch cfgFail 1 schedFail true).outDocs = none ∧
    ∀ d ∈ (udpipe_tag_batch cfgFail 1 schedFail true).slotsAfter, d = zeroDoc := by
  refine ⟨by decide, by decide, ?_⟩
  have h := (C1_batch_all_or_nothing cfgFail 1 schedFail true (by decide)).1
    ⟨1, by decide, by decide⟩
  exact ⟨h.1, h.2.1, h.2.2.2⟩

/-- C5: on every succeeding batch, under any schedule reaching the join, the
document at output index i is exactly the result of processing the input
text at index i, for every i, regardless of the order in which the workers
processed the texts. -/
theorem C5_index_alignment (cfg : BatchCfg) (hw : Nat) (sched : List Nat)
    (outAllocOk : Bool)
    (hdone : AllDone (runSched cfg (initBState cfg hw) sched))
    (hret : (udpipe_tag_batch cfg hw sched outAllocOk).ret = 1) :
    ∃ docs, (udpipe_tag_batch cfg hw sched outAllocOk).outDocs = some docs ∧
      docs.length = cfg.texts.length ∧
      ∀ i, i < cfg.texts.length →
        docs[i]? = some (buildDoc cfg.m cfg.doParse (cfg.slotAllocOk i)
          (cfg.texts.getD i "")).2 := by
  obtain ⟨hflag, hOk, heq⟩ := finishBatch_ret_one outAllocOk _ hret
  refine ⟨(runSched cfg (initBState cfg hw) sched).slots, ?_, ?_, ?_⟩
  · show (finishBatch outAllocOk _).outDocs = _
    rw [heq]
  · exact (BInv_runSched cfg _ sched (BInv_init cfg hw)).1
  · intro i hin
    exact (batch_success_state cfg hw sched hdone hflag i hin).1

theorem C5_witness :
    AllDone (runSched cfgOk (initBState cfgOk 2) schedOk) ∧
    (udpipe_tag_batch cfgOk 2 schedOk true).ret = 1 ∧
    ∃ docs, (udpipe_tag_batch cfgOk 2 schedOk true).outDocs = some docs ∧
      docs.length = cfgOk.texts.length ∧
      ∀ i, i < cfgOk.texts.length →
        docs[i]? = some (buildDoc cfgOk.m cfgOk.doParse (cfgOk.slotAllocOk i)
          (cfgOk.texts.getD i "")).2 :=
  ⟨by decide, by decide, C5_index_alignment cfgOk 2 schedOk true (by decide) (by decide)⟩
